import Mathlib

/-!
Shallow embedding, over ℝ, of the GlobustVP vanishing-point engine
(`src/public/pyscript/globustvp/`): the geometry normalizer
(`geometry.py`), the direction histogrammer and solution
validator/recoverer and peak-interval pruner (`solver_utils.py`), the VP
search orchestrator (`core.py:globustvp`) and the worker result payload
(`globustvp-worker.py:process_image_sync`).

Modelling conventions:

* numpy float arithmetic is modelled by exact real arithmetic (`ℝ`); the
  float special cases that the source relies on (`0/0 → nan`,
  `±x/0 → ±inf` before `np.arctan` in `generate_bin`) are made explicit
  case splits, documented at the definition.
* the external numerical kernels — `np.linalg.svd`, `np.linalg.eigvalsh`,
  `scipy.linalg.null_space` and the cvxpy SDP solve of `sdp_solver.py` —
  are inputs of the model: each outer iteration consumes oracle data
  (`IterOracle`) holding the solver's leading 3×3 blocks together with
  the eigenvalue and SVD factorizations the library would compute for
  them.  Their consistency (`SVD3.valid`, `IsEigvalsh`) is hypothesised
  or proved exactly where a claim needs it; the orchestrator's control
  flow never checks it, faithfully to the source.
* the sampled cost matrices `C` (core.py:107-124) feed only the external
  solver, so the model keeps the solve outcome abstract.  The one
  observable effect of the sampling code itself —
  `np.random.choice(active_size, sample_size, replace=False)` raising
  `ValueError` when `sample_size > active_size` (core.py:97/99), which is
  outside the `try` that guards only `solve_sdp` — is modelled by the
  `Result.fault` outcome (`stepFaults`).
-/

set_option maxRecDepth 100000

namespace GlobustVP

noncomputable section

open Classical

abbrev Vec3 := Fin 3 → ℝ

abbrev Mat3 := Matrix (Fin 3) (Fin 3) ℝ

/-- `u @ v` for 3-vectors. -/
def dot3 (u v : Vec3) : ℝ := u 0 * v 0 + u 1 * v 1 + u 2 * v 2

/-- `np.cross` for 3-vectors. -/
def cross3 (u v : Vec3) : Vec3 :=
  ![u 1 * v 2 - u 2 * v 1, u 2 * v 0 - u 0 * v 2, u 0 * v 1 - u 1 * v 0]

/-- `np.linalg.norm` of a 3-vector. -/
def norm3 (v : Vec3) : ℝ := Real.sqrt (v 0 ^ 2 + v 1 ^ 2 + v 2 ^ 2)

/-- `np.clip(x, lo, hi)`: maximum with `lo`, then minimum with `hi`. -/
def clip (x lo hi : ℝ) : ℝ := min (max x lo) hi

/-- `np.degrees`. -/
def degrees (x : ℝ) : ℝ := x * (180 / Real.pi)

def vzero : Vec3 := fun _ => 0

/-- The `(U, S, Vt)` triple returned by `np.linalg.svd` on a 3×3 matrix. -/
structure SVD3 where
  U : Mat3
  S : Fin 3 → ℝ
  Vt : Mat3

/-- `f` is a genuine singular-value decomposition of `A`: orthogonal
factors, nonnegative singular values in descending order, and
`A = U · diag S · Vt`.  This is the contract of `np.linalg.svd`. -/
def SVD3.valid (A : Mat3) (f : SVD3) : Prop :=
  f.U * f.U.transpose = 1 ∧ f.Vt * f.Vt.transpose = 1 ∧
    (∀ i, 0 ≤ f.S i) ∧ (f.S 1 ≤ f.S 0 ∧ f.S 2 ≤ f.S 1) ∧
    A = f.U * Matrix.diagonal f.S * f.Vt

/-- `e` is the ascending eigenvalue triple `np.linalg.eigvalsh` computes
for the symmetric matrix `B`: `B` is orthogonally similar to `diag e`
with `e` sorted ascending. -/
def IsEigvalsh (B : Mat3) (e : Fin 3 → ℝ) : Prop :=
  (e 0 ≤ e 1 ∧ e 1 ≤ e 2) ∧
    ∃ P : Mat3, P * P.transpose = 1 ∧ B = P * Matrix.diagonal e * P.transpose

/-- A solve outcome is consistent with the numerical kernels it models:
its recovery SVD really factors the first block and its eigenvalue
triples really are the ascending spectra of the blocks. -/
def SolveOutConsistent (B1 B2 : Mat3) (eig1 eig2 : Fin 3 → ℝ)
    (svd1 : SVD3) : Prop :=
  SVD3.valid B1 svd1 ∧ IsEigvalsh B1 eig1 ∧ IsEigvalsh B2 eig2

/-! ## solver_utils.py -/

/-- One pass flag of `check_eig` (solver_utils.py:100-112) on the
ascending eigenvalues of one 3×3 VP block: `largest = eigvals[-1]`,
`second = eigvals[-2]`, `ratio = largest / second if second > 1e-12 else
np.inf`, and the flag is `ratio > threshold`.  `np.inf` exceeds every
finite threshold, so the guard-failure branch passes unconditionally. -/
def check_eig_one (eigvals : Fin 3 → ℝ) (threshold : ℝ) : Prop :=
  if 1e-12 < eigvals 1 then threshold < eigvals 2 / eigvals 1 else True

/-- `recover_vp` (solver_utils.py:114-117) applied to the SVD data of
`W[:3,:3,0]`: `S[0] * Vt[0]`, the top right-singular row scaled by the
leading singular value. -/
def recover_vp (f : SVD3) : Vec3 := fun j => f.S 0 * f.Vt 0 j

/-- `axang2rotm` (solver_utils.py:119-133): Rodrigues rotation matrix. -/
def axang2rotm (axis : Vec3) (theta : ℝ) : Mat3 :=
  let x := axis 0 / norm3 axis
  let y := axis 1 / norm3 axis
  let z := axis 2 / norm3 axis
  let c := Real.cos theta
  let s := Real.sin theta
  let C := 1 - c
  Matrix.of
    ![![c + x * x * C, x * y * C - z * s, x * z * C + y * s],
      ![y * x * C + z * s, c + y * y * C, y * z * C - x * s],
      ![z * x * C - y * s, z * y * C + x * s, c + z * z * C]]

/-- `_angle_mask_vectorized` (solver_utils.py:135-170): the indices of
the line normals, of norm above `1e-8`, whose angle to `n1_rot` or to
`n2_rot` is within 0.5° of 90°. -/
def angle_mask {n : ℕ} (normals : Fin n → Vec3) (n1rot n2rot : Vec3) :
    List (Fin n) :=
  (List.finRange n).filter fun i =>
    let nrm := norm3 (normals i)
    let c1 := clip (dot3 (normals i) n1rot / nrm) (-1) 1
    let c2 := clip (dot3 (normals i) n2rot / nrm) (-1) 1
    decide ((|degrees (Real.arccos c1) - 90| ≤ 0.5 ∨
             |degrees (Real.arccos c2) - 90| ≤ 0.5) ∧ 1e-8 < nrm)

/-- The per-angle inlier list of `find_peak_intervals`
(solver_utils.py:182-194): rotate `n1base` by `angle_deg` degrees about
the normalized `d`, renormalize, complete with the cross product, and
collect the supporting line indices. -/
def peakInliers {n : ℕ} (d : Vec3) (normals : Fin n → Vec3)
    (n1base : Vec3) (angle_deg : ℕ) : List (Fin n) :=
  let theta := (angle_deg : ℝ) * Real.pi / 180
  let R := axang2rotm d theta
  let n1rot0 := R.mulVec n1base
  let n1rot := fun j => n1rot0 j / norm3 n1rot0
  let n2rot0 := cross3 d n1rot
  let n2rot := fun j => n2rot0 j / norm3 n2rot0
  angle_mask normals n1rot n2rot

/-- `find_peak_intervals` (solver_utils.py:172-197): over 90 one-degree
rotations about the accepted direction `d`, pick the angle whose inlier
list is largest (`np.argmax`, first maximal index) and return its line
indices.  `n1base` stands for the first column of
`scipy.linalg.null_space(d.reshape(1, 3))`, an external kernel. -/
def find_peak_intervals {n : ℕ} (d0 : Vec3) (normals : Fin n → Vec3)
    (n1base : Vec3) : List (Fin n) :=
  let d := fun j => d0 j / norm3 d0
  let binCount : ℕ → ℕ := fun a => (peakInliers d normals n1base a).length
  let peak := (List.range 90).foldl
    (fun acc a => if binCount acc < binCount a then a else acc) 0
  peakInliers d normals n1base peak

/-- Search parameters of `globustvp` (the `param` dict).  The total line
count `line_num` is the type index `n` of the search state; defaults in
the source: `iteration = 50`, `eigen_threshold = 9`,
`histogram_len = 100`. -/
structure Param where
  vanishing_point_num : ℕ
  c : ℝ
  sample_line_num : ℕ
  is_fast_solver : Bool
  eigen_threshold : ℝ
  histogram_len : ℕ
  iteration : ℕ

/-- The direction of one 2D segment as `generate_bin` computes it
(solver_utils.py:21-44): `np.arctan(dy / dx)`, where the float semantics
give `arctan(±inf) = ±π/2` for `dx = 0, dy ≷ 0` and `nan` for
`dx = dy = 0`, the latter being remapped to `π/2` by the `isnan` fixup.
Note a vertical segment with `dy < 0` gets `-π/2`, not `π/2`. -/
def lineDirection (dx dy : ℝ) : ℝ :=
  if dx = 0 then
    (if dy = 0 then Real.pi / 2 else if 0 < dy then Real.pi / 2 else -(Real.pi / 2))
  else Real.arctan (dy / dx)

/-- The histogram bin of one segment (solver_utils.py:46-52): shift the
direction by `π/2`, ceiling-divide by `resolution = π / histogram_len`,
clip the 1-based index into `[1, histogram_len]` and subtract 1. -/
def binId {N : ℕ} (lines : Fin N → Fin 4 → ℝ) (p : Param) (i : Fin N) : ℕ :=
  let dx := lines i 2 - lines i 0
  let dy := lines i 3 - lines i 1
  let resolution := Real.pi / p.histogram_len
  let shifted := lineDirection dx dy + Real.pi / 2
  (min (max ⌈shifted / resolution⌉ 1) p.histogram_len - 1).toNat

/-- The per-bin index cell (`dir_cell`, solver_utils.py:54-57): the
global indices assigned to bin `b`, in increasing order. -/
def dirCell {N : ℕ} (bin : Fin N → ℕ) (b : ℕ) : List (Fin N) :=
  (List.finRange N).filter fun i => bin i = b

/-- The combinatorial core of `generate_bin` (solver_utils.py:54-98),
abstracted over the bin assignment: select a count-maximal bin and
return its cell.  The source selects the bin via
`np.argsort(dir_histogram)[-1]`; numpy leaves the order among tied
counts unspecified, so the model commits to the first maximal bin (the
`np.argmax` convention) — every input considered by a claim has a
unique maximal bin. -/
def genBinCore {N : ℕ} (bin : Fin N → ℕ) (H : ℕ) : List (Fin N) :=
  dirCell bin ((List.range H).foldl
    (fun acc b =>
      if (dirCell bin acc).length < (dirCell bin b).length then b else acc) 0)

/-- `generate_bin` (solver_utils.py:5-98): histogram the 2D segment
directions and return the global indices of the dominant bin. -/
def generate_bin {N : ℕ} (lines : Fin N → Fin 4 → ℝ) (p : Param) :
    List (Fin N) :=
  genBinCore (binId lines p) p.histogram_len

/-! ## geometry.py -/

/-- `skew` (geometry.py:4-12). -/
def skew (v : Vec3) : Mat3 :=
  Matrix.of ![![0, -v 2, v 1], ![v 2, 0, -v 0], ![-v 1, v 0, 0]]

/-- The homogenized endpoint `[x, y, 1]`. -/
def hom2 (x y : ℝ) : Vec3 := ![x, y, 1]

/-- `Sigma_h` of `compute_line_uncertainties` (geometry.py:111-113):
an isotropic 2-pixel-variance block embedded in 3×3. -/
def SigmaH : Mat3 := Matrix.of ![![2, 0, 0], ![0, 2, 0], ![0, 0, 0]]

/-- The raw inverse-trace weight of one normalized line
(geometry.py:117-137): propagate `K⁻¹ Σ_h K⁻ᵀ` through the two skew
matrices and the normalized-cross-product Jacobian, and take
`1 / trace`. -/
def rawWeight (K : Mat3) (line : Fin 4 → ℝ) : ℝ :=
  let Kinv := K⁻¹
  let Sigma1 := Kinv * SigmaH * Kinv.transpose
  let p1 := hom2 (line 0) (line 1)
  let p2 := hom2 (line 2) (line 3)
  let l3 := cross3 p1 p2
  let nl := norm3 l3
  let ln : Vec3 := fun j => l3 j / nl
  let S1 := skew p2
  let S2 := skew p1
  let Sl := S1 * Sigma1 * S1.transpose + S2 * Sigma1 * S2.transpose
  let J := (1 / nl) • ((1 : Mat3) - Matrix.vecMulVec ln ln)
  let Sn := J * Sl * J.transpose
  1 / Sn.trace

/-- `compute_line_uncertainties` (geometry.py:93-144): raw inverse-trace
weights, affinely rescaled across the line set into `[0.1, 0.3]` with
the difference floored at `1e-8`; all ones when weighting is off. -/
def compute_line_uncertainties {N : ℕ} [NeZero N]
    (lines : Fin N → Fin 4 → ℝ) (K : Mat3) (use_uncertainty : Bool) :
    Fin N → ℝ :=
  if use_uncertainty then
    let raw : Fin N → ℝ := fun i => rawWeight K (lines i)
    let minU := Finset.univ.inf' Finset.univ_nonempty raw
    let maxU := Finset.univ.sup' Finset.univ_nonempty raw
    let diff0 := maxU - minU
    let diff := if diff0 < 1e-8 then 1e-8 else diff0
    fun i => 0.1 + (raw i - minU) * 0.2 / diff
  else fun _ => 1

/-! ## core.py: state, oracles, one iteration -/

/-- The mutable search state of `globustvp` (core.py:10-13): accepted
VPs, their correspondence vectors, the boolean active mask, and the
reverse map `np.where(line_id_pool)[0]`. -/
structure SearchState (n : ℕ) where
  est_vps : List Vec3
  est_corrs : List (Fin n → ℝ)
  line_id_pool : Fin n → Bool
  reverse_pool : List (Fin n)

/-- `reset()` (core.py:10-13): no VPs, no correspondences, all lines
active, identity reverse map. -/
def resetState (n : ℕ) : SearchState n :=
  ⟨[], [], fun _ => true, List.finRange n⟩

/-- The data the external SDP solve of one iteration hands back, as far
as the orchestrator reads it: the leading 3×3 blocks `X[:3,:3,0]` and
`X[:3,:3,1]`, the eigenvalues `np.linalg.eigvalsh` computes for them in
`check_eig`, and the SVD `np.linalg.svd` computes for the first block in
`recover_vp`. -/
structure SolveOut where
  B1 : Mat3
  B2 : Mat3
  eig1 : Fin 3 → ℝ
  eig2 : Fin 3 → ℝ
  svd1 : SVD3

/-- The external-kernel outcomes consumed by one outer iteration:
`solved = none` models `solve_sdp` raising (caught at core.py:130-132);
`svdTriad` models `np.linalg.svd` on the sign-corrected stacked triad
(core.py:214) — an over-approximation leaving the factorization the
deterministic library call picks unspecified, adequate here because no
theorem below depends on which factorization is returned; `n1base`
models the `scipy.linalg.null_space` basis column used by
`find_peak_intervals`. -/
structure IterOracle (n : ℕ) where
  solved : Option SolveOut
  svdTriad : Mat3 → SVD3
  n1base : Vec3

/-- The value `globustvp` delivers: `(True, vps, corrs)` on success,
`(False, vps, corrs)` on budget exhaustion (core.py:223), or an escaped
`ValueError` from the first-VP sampling (`fault`). -/
inductive Result (n : ℕ) where
  | ok (vps : List Vec3) (corrs : List (Fin n → ℝ))
  | failed (vps : List Vec3) (corrs : List (Fin n → ℝ))
  | fault

/-- Outcome of one loop iteration: a return out of the loop, or the next
state. -/
inductive StepRes (n : ℕ) where
  | done (r : Result n)
  | next (st : SearchState n)

/-- `len(active_lines)` (core.py:31-33): the number of lines whose mask
bit is set. -/
def activeSize {n : ℕ} (st : SearchState n) : ℕ :=
  (List.finRange n).countP fun g => st.line_id_pool g

/-- `all(check_eig(X, param))` (core.py:135, solver_utils.py:100-112):
both VP blocks must pass the rank-dominance test. -/
def check_eig (s : SolveOut) (p : Param) : Prop :=
  check_eig_one s.eig1 p.eigen_threshold ∧ check_eig_one s.eig2 p.eigen_threshold

/-- The inlier set of a candidate VP over the active pool
(core.py:175-179): the code thresholds `|para_lines[line_id_pool] @ vp|`
and maps the local hits through `reverse_pool`; since `reverse_pool`
lists the active global indices in order, this is the filter of
`reverse_pool` by the threshold. -/
def inlierIds {n : ℕ} (para : Fin n → Vec3) (p : Param) (vp : Vec3)
    (st : SearchState n) : List (Fin n) :=
  st.reverse_pool.filter fun g => decide (|dot3 (para g) vp| < p.c)

/-- The 0/1 correspondence vector over all lines (core.py:204-205). -/
def corrVec {n : ℕ} (ids : List (Fin n)) : Fin n → ℝ :=
  fun g => if g ∈ ids then 1 else 0

/-- `np.array(est_vps)` for a 3-element list: the 3×3 matrix whose rows
are the stacked VPs. -/
def stackVps (vps : List Vec3) : Mat3 :=
  Matrix.of ![vps.getD 0 vzero, vps.getD 1 vzero, vps.getD 2 vzero]

/-- Determinant-sign correction (core.py:211-212): if the stacked triad
has negative determinant, flip the first row. -/
def triadMat (vps : List Vec3) : Mat3 :=
  let M := stackVps vps
  if M.det < 0 then M.updateRow 0 (fun j => -(M 0 j)) else M

/-- `np.allclose(A, np.eye(3), atol=1e-3)` (core.py:217), entrywise with
numpy's default `rtol = 1e-5`. -/
def allcloseId (A : Mat3) : Prop :=
  ∀ i j, |A i j - (1 : Mat3) i j| ≤ 1e-3 + 1e-5 * |(1 : Mat3) i j|

/-- The SVD-projected triad `U @ Vt` (core.py:214-215) of the
sign-corrected stacked VPs. -/
def triadProj {n : ℕ} (o : IterOracle n) (vps : List Vec3) : Mat3 :=
  (o.svdTriad (triadMat vps)).U * (o.svdTriad (triadMat vps)).Vt

/-- The triad-validation step (core.py:208-221): sign-correct the
stacked triad, project via SVD (`U @ Vt`), return success if the result
is orthonormal within tolerance, else reset. -/
def finalizeTriad {n : ℕ} (o : IterOracle n) (vps : List Vec3)
    (corrs : List (Fin n → ℝ)) : StepRes n :=
  if allcloseId (triadProj o vps * (triadProj o vps).transpose) then
    .done (.ok [triadProj o vps 0, triadProj o vps 1, triadProj o vps 2] corrs)
  else .next (resetState n)

/-- The pool right after acceptance, before inlier removal
(core.py:181-195): replaced outright by the peak-interval output when
this is the first VP under the fast path, else the incoming pool. -/
def acceptPool1 {n : ℕ} (para : Fin n → Vec3) (p : Param)
    (o : IterOracle n) (st : SearchState n) (est_vp : Vec3) : Fin n → Bool :=
  if p.is_fast_solver = true ∧ (st.est_vps ++ [est_vp]).length = 1 then
    fun g => decide (g ∈ find_peak_intervals est_vp para o.n1base)
  else st.line_id_pool

/-- The pool after inlier removal (core.py:198): the accepted VP's own
inliers are cleared from `acceptPool1`. -/
def acceptPool2 {n : ℕ} (para : Fin n → Vec3) (p : Param)
    (o : IterOracle n) (st : SearchState n) (est_vp : Vec3) : Fin n → Bool :=
  fun g => acceptPool1 para p o st est_vp g &&
    !(decide (g ∈ inlierIds para p est_vp st))

/-- The search state after a (non-final) acceptance (core.py:162-206):
appended VP and correspondence vector, updated pool, rebuilt reverse
map. -/
def acceptState {n : ℕ} (para : Fin n → Vec3) (p : Param)
    (o : IterOracle n) (st : SearchState n) (est_vp : Vec3) : SearchState n :=
  ⟨st.est_vps ++ [est_vp],
   st.est_corrs ++ [corrVec (inlierIds para p est_vp st)],
   acceptPool2 para p o st est_vp,
   (List.finRange n).filter fun g => acceptPool2 para p o st est_vp g⟩

/-- Acceptance of a recovered VP (core.py:162-221): append the VP,
classify the active inliers, update the pool and bookkeeping, and run
the triad validation once three VPs are collected. -/
def acceptStep {n : ℕ} (para : Fin n → Vec3) (p : Param)
    (o : IterOracle n) (st : SearchState n) (est_vp : Vec3) : StepRes n :=
  if (st.est_vps ++ [est_vp]).length = 3 then
    finalizeTriad o (st.est_vps ++ [est_vp])
      (st.est_corrs ++ [corrVec (inlierIds para p est_vp st)])
  else .next (acceptState para p o st est_vp)

/-- The third-VP candidate (core.py:154-160): keep the recovered VP
when it is orthogonal to both accepted VPs within `1e-3`, else replace
it outright by their normalized cross product. -/
def thirdVp {n : ℕ} (st : SearchState n) (s : SolveOut) : Vec3 :=
  let est_vp := recover_vp s.svd1
  if 1e-3 < |dot3 (st.est_vps.getD 0 vzero) est_vp| ∨
     1e-3 < |dot3 (st.est_vps.getD 1 vzero) est_vp| then
    let cr := cross3 (st.est_vps.getD 0 vzero) (st.est_vps.getD 1 vzero)
    fun j => cr j / norm3 cr
  else est_vp

/-- The fast-path seeding of the first-VP sample is usable
(core.py:46-55): the fast flag is on, `generate_bin` produced a nonempty
bin, and at least `sample_line_num` of its indices are still active. -/
def fastSeedUsable {n : ℕ} (p : Param) (seed : Option (List (Fin n)))
    (st : SearchState n) : Prop :=
  p.is_fast_solver = true ∧ ∃ l, seed = some l ∧ l ≠ [] ∧
    p.sample_line_num ≤ (l.filter fun g => st.line_id_pool g).length

/-- The first-VP uniform sampling raises (core.py:97/99):
`np.random.choice(active_size, sample_size, replace=False)` demands
`sample_size ≤ active_size`, and this call is reached — outside the
`try` that guards only `solve_sdp` — exactly when no VP is accepted yet
and the fast-path seeding is not usable. -/
def stepFaults {n : ℕ} (p : Param) (seed : Option (List (Fin n)))
    (st : SearchState n) : Prop :=
  st.est_vps = [] ∧ ¬ fastSeedUsable p seed st ∧
    activeSize st < p.sample_line_num

/-- The second-VP orthogonality rejection test (core.py:142-153):
`angle = degrees(arccos(clip(vp1 @ vp, -1, 1)))` deviates from 90° by
more than `90 - degrees(arccos(c))`. -/
def orthoFail (p : Param) (v1 vp : Vec3) : Prop :=
  |90 - degrees (Real.arccos (clip (dot3 v1 vp) (-1) 1))| >
    90 - degrees (Real.arccos p.c)

/-- One iteration of the `while True` body (core.py:31-221), after the
iteration counter is advanced: pool-size check with success/reset,
sampling (whose only modelled effect is the possible `ValueError`),
external solve, rank check, recovery, orthogonality validation,
acceptance.  The subsequent-VP sampling (core.py:102) caps the sample at
`active_size` and cannot raise. -/
def step {n : ℕ} (para : Fin n → Vec3) (p : Param)
    (seed : Option (List (Fin n))) (o : IterOracle n)
    (st : SearchState n) : StepRes n :=
  if activeSize st < 3 then
    if st.est_vps.length = p.vanishing_point_num then
      .done (.ok st.est_vps st.est_corrs)
    else .next (resetState n)
  else if stepFaults p seed st then .done .fault
  else
    match o.solved with
    | none => .next st
    | some s =>
      if check_eig s p then
        if st.est_vps.length = 1 then
          if orthoFail p (st.est_vps.getD 0 vzero) (recover_vp s.svd1) then
            .next (resetState n)
          else acceptStep para p o st (recover_vp s.svd1)
        else if st.est_vps.length = 2 then
          acceptStep para p o st (thirdVp st s)
        else acceptStep para p o st (recover_vp s.svd1)
      else .next st

/-- The fueled outer loop (core.py:25-29, 223): each unit of fuel is one
outer iteration; exhausted fuel is the `iter_count > max_iter` break,
returning `(False, est_vps, est_corrs)`. -/
def runAux {n : ℕ} (para : Fin n → Vec3) (p : Param)
    (seed : Option (List (Fin n))) (o : ℕ → IterOracle n) :
    ℕ → SearchState n → Result n
  | 0, st => .failed st.est_vps st.est_corrs
  | fuel + 1, st =>
    match step para p seed (o 0) st with
    | .done r => r
    | .next st' => runAux para p seed (fun k => o (k + 1)) fuel st'

/-- The number of outer iterations the fueled loop executes. -/
def runSteps {n : ℕ} (para : Fin n → Vec3) (p : Param)
    (seed : Option (List (Fin n))) (o : ℕ → IterOracle n) :
    ℕ → SearchState n → ℕ
  | 0, _ => 0
  | fuel + 1, st =>
    match step para p seed (o 0) st with
    | .done _ => 1
    | .next st' => runSteps para p seed (fun k => o (k + 1)) fuel st' + 1

/-- The fast-path seed (core.py:16-19): the dominant histogram bin when
the fast solver is enabled, else `None`. -/
def seedOf {n : ℕ} (all_2D_lines : Fin n → Fin 4 → ℝ) (p : Param) :
    Option (List (Fin n)) :=
  if p.is_fast_solver then some (generate_bin all_2D_lines p) else none

/-- `globustvp` (core.py:6-223): compute the fast-path seed bin once,
then run the outer loop from the reset state for at most
`param["iteration"]` iterations.  `all_2D_lines` feeds only the seeding
histogram and `uncertainty` only the cost matrices handed to the
external solver. -/
def globustvp {n : ℕ} (all_2D_lines : Fin n → Fin 4 → ℝ)
    (para_lines : Fin n → Vec3) (uncertainty : Fin n → ℝ) (p : Param)
    (o : ℕ → IterOracle n) : Result n :=
  let _ := uncertainty
  runAux para_lines p (seedOf all_2D_lines p) o p.iteration (resetState n)

/-- Reachability of a search state from another under a given oracle
stream: the reflexive-transitive closure of `step · = .next ·`. -/
inductive Reaches {n : ℕ} (para : Fin n → Vec3) (p : Param)
    (seed : Option (List (Fin n))) :
    (ℕ → IterOracle n) → SearchState n → SearchState n → Prop
  | refl (o : ℕ → IterOracle n) (st : SearchState n) : Reaches para p seed o st st
  | tail (o : ℕ → IterOracle n) (st st' st'' : SearchState n) :
      step para p seed (o 0) st = .next st' →
      Reaches para p seed (fun k => o (k + 1)) st' st'' →
      Reaches para p seed o st st''

/-! ## globustvp-worker.py: the payload handed to the host -/

/-- The structured content of the JSON payload `process_image_sync`
returns (globustvp-worker.py:161-174): a success record with the echoed
lines, 3D VPs, projected 2D VPs and per-line associations; a failure
record carrying only the status/error strings; or the catch-all error
record for an escaped exception. -/
inductive Payload (n : ℕ) where
  | success (lines : List (Fin 4 → ℝ)) (vps3d : List Vec3)
      (vps2d : List (Option (Fin 2 → ℝ))) (assoc : Fin n → ℤ)
  | failedP (error : String)
  | errorP

/-- The 2D projection of one VP (globustvp-worker.py:139-147): `K @ vp`,
dehomogenized when `|z| > 1e-5`, else the "infinity" marker (`none`). -/
def projectVp (K : Mat3) (vp : Vec3) : Option (Fin 2 → ℝ) :=
  let vc := K.mulVec vp
  if 1e-5 < |vc 2| then some ![vc 0 / vc 2, vc 1 / vc 2] else none

/-- The per-line VP assignment (globustvp-worker.py:152-159): start at
−1 and let each later VP whose correspondence marks the line overwrite
the entry. -/
def associations {n : ℕ} (corrs : List (Fin n → ℝ)) : Fin n → ℤ :=
  fun i => (List.range corrs.length).foldl
    (fun acc k => if 0 < (corrs.getD k (fun _ => 0)) i then (k : ℤ) else acc) (-1)

/-- The result branch of `process_image_sync`
(globustvp-worker.py:128-174): package a success result with projections
and associations; report `{"status": "failed", ...}` with no VP data on
a `False` flag; report the catch-all error record when the engine
raised. -/
def processResult {n : ℕ} (K : Mat3) (lines2D : List (Fin 4 → ℝ))
    (r : Result n) : Payload n :=
  match r with
  | .ok vps corrs =>
    .success lines2D vps (vps.map (projectVp K)) (associations corrs)
  | .failed _ _ => .failedP "Solver did not converge."
  | .fault => .errorP

/-- Invariant: while no VP is accepted, the pool is untouched — the mask
is all-True and the reverse map is the identity enumeration. -/
def PoolFull {n : ℕ} (st : SearchState n) : Prop :=
  st.est_vps = [] →
    st.line_id_pool = (fun _ => true) ∧ st.reverse_pool = List.finRange n

/-- The active lines `para_lines[line_id_pool]` in pool order, via the
reverse map. -/
def activeLines {n : ℕ} (para : Fin n → Vec3) (st : SearchState n) :
    List Vec3 :=
  st.reverse_pool.map para

/-- Two correspondence vectors mark disjoint index sets: no line is
marked nonzero by both. -/
def CorrDisj {n : ℕ} (c1 c2 : Fin n → ℝ) : Prop := ∀ g, c1 g = 0 ∨ c2 g = 0

/-- Invariant of the orchestrator: the reverse map enumerates the mask,
one correspondence per accepted VP, every recorded correspondence is
zero on the still-active lines, and the recorded correspondences are
pairwise disjoint. -/
def CorrInv {n : ℕ} (st : SearchState n) : Prop :=
  st.reverse_pool = ((List.finRange n).filter fun g => st.line_id_pool g) ∧
  st.est_corrs.length = st.est_vps.length ∧
  (∀ c ∈ st.est_corrs, ∀ g, st.line_id_pool g = true → c g = 0) ∧
  List.Pairwise CorrDisj st.est_corrs

/-! ## Concrete instances used by witnesses and counterexamples -/

/-- The identity SVD triple. -/
def svdOne : SVD3 := ⟨1, ![1, 1, 1], 1⟩

/-- A single degenerate-free input line for the uncertainty witness. -/
def linesW5 : Fin 1 → Fin 4 → ℝ := fun _ => ![0, 0, 0, 1]

/-- Two identical upward vertical segments. -/
def linesW4 : Fin 2 → Fin 4 → ℝ := fun _ => ![0, 0, 0, 1]

/-- Three vertical segments of identical orientation: two drawn upward
(`dy > 0`) and one drawn downward (`dy < 0`). -/
def cex4Lines : Fin 3 → Fin 4 → ℝ :=
  ![![0, 0, 0, 1], ![1, 0, 1, 1], ![2, 1, 2, 0]]

/-- Three 2D segments, used where the histogram seeding is off. -/
def cex2Lines : Fin 3 → Fin 4 → ℝ := fun _ => ![0, 0, 0, 1]

/-- Three identical plane normals; with `c = 0` no line is ever an
inlier, so the pool never shrinks. -/
def cex2Para : Fin 3 → Vec3 := fun _ => ![1, 0, 0]

def cex2Unc : Fin 3 → ℝ := fun _ => 1

/-- An iteration oracle whose solve always raises. -/
def noneOracle : IterOracle 3 := ⟨none, fun _ => svdOne, ![0, 1, 0]⟩

def cex2O : ℕ → IterOracle 3 := fun _ => noneOracle

/-- Parameters with a sample size exceeding the line count. -/
def p4 : Param :=
  { vanishing_point_num := 3, c := 0, sample_line_num := 4,
    is_fast_solver := false, eigen_threshold := 9, histogram_len := 100,
    iteration := 3 }

/-- Parameters with sample size 3 over 3 lines. -/
def p3 : Param :=
  { vanishing_point_num := 3, c := 0, sample_line_num := 3,
    is_fast_solver := false, eigen_threshold := 9, histogram_len := 100,
    iteration := 3 }

/-- Parameters like `p3` but with the fast path enabled. -/
def pFast : Param :=
  { vanishing_point_num := 3, c := 0, sample_line_num := 3,
    is_fast_solver := true, eigen_threshold := 9, histogram_len := 100,
    iteration := 3 }

/-- The SVD of the zero block: recovery yields the zero vector. -/
def svdZero : SVD3 := ⟨1, ![0, 0, 0], 1⟩

/-- A solver outcome with zero VP blocks: the rank check passes through
the `second ≤ 1e-12 → np.inf` branch and `recover_vp` returns `0`. -/
def soZero : SolveOut := ⟨0, 0, ![0, 0, 0], ![0, 0, 0], svdZero⟩

def zeroOracle : IterOracle 3 := ⟨some soZero, fun _ => svdOne, ![0, 1, 0]⟩

/-- A solver outcome whose VP blocks fail the rank-dominance test under
`eigen_threshold = 9`: eigenvalue ratio `5 / 5 = 1`. -/
def soEigFail : SolveOut := ⟨1, 1, ![0, 5, 5], ![0, 5, 5], svdOne⟩

/-- The permutation matrix swapping coordinates 0 and 1. -/
def mSwap01 : Mat3 := Matrix.of ![![0, 1, 0], ![1, 0, 0], ![0, 0, 1]]

/-- The permutation matrix swapping coordinates 0 and 2. -/
def mSwap02 : Mat3 := Matrix.of ![![0, 0, 1], ![0, 1, 0], ![1, 0, 0]]

/-- An SVD of `diag(1,0,0)`; recovery yields `(1,0,0)`. -/
def svdE0 : SVD3 := ⟨1, ![1, 0, 0], 1⟩

/-- An SVD of `diag(0,1,0)`; recovery yields `(0,1,0)`. -/
def svdE1 : SVD3 := ⟨mSwap01, ![1, 0, 0], mSwap01⟩

/-- An SVD of `diag(0,0,1)`; recovery yields `(0,0,1)`. -/
def svdE2 : SVD3 := ⟨mSwap02, ![1, 0, 0], mSwap02⟩

def so1 : SolveOut :=
  ⟨Matrix.diagonal ![1, 0, 0], Matrix.diagonal ![1, 0, 0],
   ![0, 0, 1], ![0, 0, 1], svdE0⟩

def so2 : SolveOut :=
  ⟨Matrix.diagonal ![0, 1, 0], Matrix.diagonal ![0, 1, 0],
   ![0, 0, 1], ![0, 0, 1], svdE1⟩

def so3ok : SolveOut :=
  ⟨Matrix.diagonal ![0, 0, 1], Matrix.diagonal ![0, 0, 1],
   ![0, 0, 1], ![0, 0, 1], svdE2⟩

def oA : IterOracle 3 := ⟨some so1, fun _ => svdOne, ![0, 1, 0]⟩

def oB : IterOracle 3 := ⟨some so2, fun _ => svdOne, ![0, 1, 0]⟩

def oCok : IterOracle 3 := ⟨some so3ok, fun _ => svdOne, ![0, 1, 0]⟩

/-- The oracle stream of a successful three-acceptance run: blocks
recovering `e0`, then `e1`, then `e2`. -/
def cexOkO : ℕ → IterOracle 3
  | 0 => oA
  | 1 => oB
  | _ => oCok

/-- The state after the first acceptance of that run. -/
def st1c : SearchState 3 :=
  ⟨[![1, 0, 0]], [corrVec []], fun _ => true, List.finRange 3⟩

/-- The state after the second acceptance of that run. -/
def st2c : SearchState 3 :=
  ⟨[![1, 0, 0], ![0, 1, 0]], [corrVec [], corrVec []],
   fun _ => true, List.finRange 3⟩

def eigFailOracle : IterOracle 3 := ⟨some soEigFail, fun _ => svdOne, ![0, 1, 0]⟩

/-! ## Supporting lemmas -/

lemma activeSize_of_full {n : ℕ} (st : SearchState n)
    (h : st.line_id_pool = fun _ => true) : activeSize st = n := by
  simp [activeSize, h, List.length_finRange]

lemma poolFull_reset (n : ℕ) : PoolFull (resetState n) := fun _ => ⟨rfl, rfl⟩

lemma step_done_not_failed {n : ℕ} (para : Fin n → Vec3) (p : Param)
    (seed : Option (List (Fin n))) (o : IterOracle n) (st : SearchState n)
    (v : List Vec3) (c' : List (Fin n → ℝ)) :
    step para p seed o st ≠ .done (.failed v c') := by
  intro h
  simp only [step, acceptStep, finalizeTriad] at h
  repeat' split at h
  all_goals simp_all

lemma acceptPool1_cases {n : ℕ} (para : Fin n → Vec3) (p : Param)
    (o : IterOracle n) (st : SearchState n) (vp : Vec3) :
    acceptPool1 para p o st vp = st.line_id_pool ∨ st.est_vps = [] := by
  unfold acceptPool1
  split
  · next hc =>
    right
    have h1 : st.est_vps.length + 1 = 1 := by simpa using hc.2
    exact List.length_eq_zero.mp (by omega)
  · left; rfl

lemma step_next_inv {n : ℕ} (para : Fin n → Vec3) (p : Param)
    (seed : Option (List (Fin n))) (o : IterOracle n) (st st' : SearchState n)
    (h : step para p seed o st = .next st') :
    st' = resetState n ∨ st' = st ∨ ∃ vp, st' = acceptState para p o st vp := by
  simp only [step, acceptStep, finalizeTriad] at h
  repeat' split at h
  all_goals try exact StepRes.noConfusion h
  all_goals injection h with h
  all_goals first
    | exact Or.inl h.symm
    | exact Or.inr (Or.inl h.symm)
    | exact Or.inr (Or.inr ⟨_, h.symm⟩)

lemma poolFull_step {n : ℕ} {para : Fin n → Vec3} {p : Param}
    {seed : Option (List (Fin n))} {o : IterOracle n} {st st' : SearchState n}
    (h : step para p seed o st = .next st') (hpf : PoolFull st) :
    PoolFull st' := by
  rcases step_next_inv para p seed o st st' h with h1 | h1 | ⟨vp, h1⟩
  · subst h1; exact poolFull_reset n
  · subst h1; exact hpf
  · subst h1
    intro hemp
    exact absurd hemp (by simp [acceptState])

lemma step_no_fault {n : ℕ} {para : Fin n → Vec3} {p : Param}
    {seed : Option (List (Fin n))} {o : IterOracle n} {st : SearchState n}
    (hs : p.sample_line_num ≤ n) (hpf : PoolFull st) :
    step para p seed o st ≠ .done .fault := by
  intro h
  unfold step at h
  by_cases h1 : activeSize st < 3
  · rw [if_pos h1] at h
    split at h <;> simp_all
  · rw [if_neg h1] at h
    by_cases h2 : stepFaults p seed st
    · obtain ⟨hemp, -, hlt⟩ := h2
      have hA : activeSize st = n := activeSize_of_full st (hpf hemp).1
      omega
    · rw [if_neg h2] at h
      simp only [acceptStep, finalizeTriad] at h
      repeat' split at h
      all_goals simp_all

lemma runSteps_le {n : ℕ} (para : Fin n → Vec3) (p : Param)
    (seed : Option (List (Fin n))) :
    ∀ (fuel : ℕ) (o : ℕ → IterOracle n) (st : SearchState n),
      runSteps para p seed o fuel st ≤ fuel := by
  intro fuel
  induction fuel with
  | zero => intro o st; simp [runSteps]
  | succ k ih =>
    intro o st
    unfold runSteps
    split
    · omega
    · exact Nat.succ_le_succ (ih _ _)

lemma runAux_failed_steps {n : ℕ} (para : Fin n → Vec3) (p : Param)
    (seed : Option (List (Fin n))) :
    ∀ (fuel : ℕ) (o : ℕ → IterOracle n) (st : SearchState n) (v : List Vec3)
      (c' : List (Fin n → ℝ)),
      runAux para p seed o fuel st = .failed v c' →
      runSteps para p seed o fuel st = fuel := by
  intro fuel
  induction fuel with
  | zero => intro o st v c' _; simp [runSteps]
  | succ k ih =>
    intro o st v c' h
    cases hstep : step para p seed (o 0) st with
    | done r =>
      have hr : r = .failed v c' := by
        unfold runAux at h; rw [hstep] at h; exact h
      rw [hr] at hstep
      exact absurd hstep (step_done_not_failed _ _ _ _ _ _ _)
    | next st' =>
      have hh : runAux para p seed (fun k2 => o (k2 + 1)) k st' = .failed v c' := by
        unfold runAux at h; rw [hstep] at h; exact h
      unfold runSteps
      rw [hstep]
      show runSteps para p seed (fun k2 => o (k2 + 1)) k st' + 1 = k + 1
      rw [ih _ _ _ _ hh]

lemma runAux_no_fault {n : ℕ} (para : Fin n → Vec3) (p : Param)
    (seed : Option (List (Fin n))) (hs : p.sample_line_num ≤ n) :
    ∀ (fuel : ℕ) (o : ℕ → IterOracle n) (st : SearchState n), PoolFull st →
      runAux para p seed o fuel st ≠ .fault := by
  intro fuel
  induction fuel with
  | zero => intro o st _ h; simp [runAux] at h
  | succ k ih =>
    intro o st hpf h
    cases hstep : step para p seed (o 0) st with
    | done r =>
      have hr : r = .fault := by
        unfold runAux at h; rw [hstep] at h; exact h
      rw [hr] at hstep
      exact step_no_fault hs hpf hstep
    | next st' =>
      have hh : runAux para p seed (fun k2 => o (k2 + 1)) k st' = .fault := by
        unfold runAux at h; rw [hstep] at h; exact h
      exact ih _ _ (poolFull_step hstep hpf) hh

lemma reaches_poolFull {n : ℕ} {para : Fin n → Vec3} {p : Param}
    {seed : Option (List (Fin n))} {o : ℕ → IterOracle n}
    {st1 st2 : SearchState n} (hr : Reaches para p seed o st1 st2) :
    PoolFull st1 → PoolFull st2 := by
  induction hr with
  | refl o st => exact id
  | tail o st st' st'' hstep _ ih => exact fun h1 => ih (poolFull_step hstep h1)

lemma lineDirection_vertical_up {dy : ℝ} (h : 0 < dy) :
    lineDirection 0 dy = Real.pi / 2 := by
  unfold lineDirection
  rw [if_pos rfl, if_neg (ne_of_gt h), if_pos h]

lemma lineDirection_vertical_down {dy : ℝ} (h : dy < 0) :
    lineDirection 0 dy = -(Real.pi / 2) := by
  unfold lineDirection
  rw [if_pos rfl, if_neg (ne_of_lt h), if_neg (not_lt.mpr h.le)]

lemma binId_lt {N : ℕ} (lines : Fin N → Fin 4 → ℝ) (p : Param) (i : Fin N)
    (hH : 0 < p.histogram_len) : binId lines p i < p.histogram_len := by
  have key : ∀ x : ℤ,
      ((max x 1) ⊓ (p.histogram_len : ℤ) - 1).toNat < p.histogram_len := by
    intro x; omega
  exact key _

lemma foldl_argmax_eq (f : ℕ → ℕ) (b0 : ℕ) :
    ∀ (l : List ℕ) (init : ℕ), (b0 ∈ l ∨ b0 = init) →
      (∀ b, (b ∈ l ∨ b = init) → b ≠ b0 → f b < f b0) →
      l.foldl (fun acc b => if f acc < f b then b else acc) init = b0 := by
  intro l
  induction l with
  | nil =>
    intro init hmem _
    rcases hmem with h | h
    · simp at h
    · simp [h]
  | cons a t ih =>
    intro init hmem hlt
    simp only [List.foldl_cons]
    by_cases ha : a = b0
    · subst ha
      by_cases hinit : init = a
      · subst hinit
        rw [if_neg (lt_irrefl _)]
        exact ih init (Or.inr rfl) fun b hb =>
          hlt b (by rcases hb with hb | hb;
                    exacts [Or.inl (List.mem_cons_of_mem _ hb), Or.inr hb])
      · have hlti : f init < f a := hlt init (Or.inr rfl) hinit
        rw [if_pos hlti]
        exact ih a (Or.inr rfl) fun b hb =>
          hlt b (by rcases hb with hb | hb;
                    exacts [Or.inl (List.mem_cons_of_mem _ hb),
                      Or.inl (hb ▸ List.mem_cons_self a t)])
    · have hfa : f a < f b0 := hlt a (Or.inl (List.mem_cons_self a t)) ha
      have hmem2 : b0 ∈ t ∨ b0 = (if f init < f a then a else init) := by
        rcases hmem with hmem | hmem
        · rcases List.mem_cons.mp hmem with hmem | hmem
          · exact absurd hmem.symm ha
          · exact Or.inl hmem
        · split
          · next hcond =>
            subst hmem
            exact absurd hcond (lt_asymm hfa)
          · exact Or.inr hmem
      refine ih _ hmem2 fun b hb hbne => hlt b ?_ hbne
      rcases hb with hb | hb
      · exact Or.inl (List.mem_cons_of_mem _ hb)
      · rw [hb]
        split
        · exact Or.inl (List.mem_cons_self a t)
        · exact Or.inr rfl

lemma genBinCore_const {N : ℕ} (bin : Fin N → ℕ) (H b0 : ℕ)
    (hb : ∀ i, bin i = b0) (hb0 : b0 < H) (hN : 0 < N) :
    genBinCore bin H = List.finRange N := by
  have hcell : ∀ b, dirCell bin b =
      if b = b0 then List.finRange N else [] := by
    intro b
    unfold dirCell
    split
    · next hbb =>
      subst hbb
      apply List.filter_eq_self.mpr
      intro i _
      simp [hb i]
    · next hbb =>
      apply List.filter_eq_nil_iff.mpr
      intro i _
      simp [hb i]
      exact fun h => hbb h.symm
  have hpeak : (List.range H).foldl
      (fun acc b =>
        if (dirCell bin acc).length < (dirCell bin b).length then b else acc)
      0 = b0 := by
    apply foldl_argmax_eq
    · left; exact List.mem_range.mpr hb0
    · intro b _ hne
      rw [hcell b, hcell b0, if_neg hne, if_pos rfl]
      simpa [List.length_finRange] using hN
  unfold genBinCore
  rw [hpeak, hcell b0, if_pos rfl]

lemma rec_e0 : recover_vp svdE0 = ![1, 0, 0] := by
  funext j
  fin_cases j <;>
    simp [recover_vp, svdE0, Matrix.one_apply, Matrix.vecHead, Matrix.vecTail]

lemma rec_e1 : recover_vp svdE1 = ![0, 1, 0] := by
  funext j
  fin_cases j <;>
    simp [recover_vp, svdE1, mSwap01, Matrix.vecHead, Matrix.vecTail]

lemma rec_e2 : recover_vp svdE2 = ![0, 0, 1] := by
  funext j
  fin_cases j <;>
    simp [recover_vp, svdE2, mSwap02, Matrix.vecHead, Matrix.vecTail]

lemma check_eig_one_of_second_small (e : Fin 3 → ℝ) (th : ℝ)
    (h : ¬ (1e-12 : ℝ) < e 1) : check_eig_one e th := by
  unfold check_eig_one
  rw [if_neg h]
  trivial

lemma check_eig_001 (th : ℝ) : check_eig_one ![0, 0, 1] th :=
  check_eig_one_of_second_small _ _ (by norm_num)

lemma inlierIds_c_zero {n : ℕ} (para : Fin n → Vec3) (p : Param)
    (hc : p.c = 0) (vp : Vec3) (st : SearchState n) :
    inlierIds para p vp st = [] := by
  unfold inlierIds
  apply List.filter_eq_nil_iff.mpr
  intro g _
  simp only [decide_eq_true_eq, hc]
  exact not_lt.mpr (abs_nonneg _)

lemma acceptPool1_slow {n : ℕ} (para : Fin n → Vec3) {p : Param}
    (hf : p.is_fast_solver = false) (o : IterOracle n) (st : SearchState n)
    (vp : Vec3) : acceptPool1 para p o st vp = st.line_id_pool := by
  unfold acceptPool1
  rw [if_neg]
  rintro ⟨h1, -⟩
  rw [hf] at h1
  cases h1

lemma acceptState_slow_czero {n : ℕ} (para : Fin n → Vec3) {p : Param}
    (hf : p.is_fast_solver = false) (hc : p.c = 0) (o : IterOracle n)
    (st : SearchState n) (vp : Vec3)
    (hpool : st.line_id_pool = fun _ => true) :
    acceptState para p o st vp =
      ⟨st.est_vps ++ [vp], st.est_corrs ++ [corrVec []],
       fun _ => true, List.finRange n⟩ := by
  have hp2 : acceptPool2 para p o st vp = fun _ => true := by
    funext g
    unfold acceptPool2
    rw [acceptPool1_slow para hf, inlierIds_c_zero para p hc, hpool]
    simp
  unfold acceptState
  rw [inlierIds_c_zero para p hc, hp2]
  simp

lemma degrees_pi_div_two : degrees (Real.pi / 2) = 90 := by
  unfold degrees
  have hpi := Real.pi_ne_zero
  field_simp
  ring

lemma clip_zero : clip 0 (-1) 1 = 0 := by unfold clip; norm_num

lemma orthoFail_c0_dot0 {v1 vp : Vec3} (hdot : dot3 v1 vp = 0) :
    ¬ orthoFail p3 v1 vp := by
  unfold orthoFail
  rw [hdot, clip_zero, Real.arccos_zero, degrees_pi_div_two,
    show p3.c = 0 from rfl, Real.arccos_zero, degrees_pi_div_two]
  norm_num

lemma dot3_e0_e1 : dot3 ![1, 0, 0] ![0, 1, 0] = 0 := by
  norm_num [dot3, Matrix.vecHead, Matrix.vecTail]

lemma dot3_right_zero (u : Vec3) : dot3 u ![0, 0, 0] = 0 := by
  norm_num [dot3, Matrix.vecHead, Matrix.vecTail]

lemma thirdVp_st2c_e2 : thirdVp st2c so3ok = ![0, 0, 1] := by
  unfold thirdVp
  rw [show recover_vp so3ok.svd1 = ![0, 0, 1] from rec_e2]
  rw [if_neg]
  rintro (h | h)
  · rw [show st2c.est_vps.getD 0 vzero = ![1, 0, 0] from rfl,
      show dot3 ![1, 0, 0] ![0, 0, 1] = 0 from by
        norm_num [dot3, Matrix.vecHead, Matrix.vecTail]] at h
    norm_num at h
  · rw [show st2c.est_vps.getD 1 vzero = ![0, 1, 0] from rfl,
      show dot3 ![0, 1, 0] ![0, 0, 1] = 0 from by
        norm_num [dot3, Matrix.vecHead, Matrix.vecTail]] at h
    norm_num at h

lemma allcloseId_one : allcloseId 1 := by
  intro i j
  rw [sub_self, abs_zero]
  positivity

lemma triadProj_oCok (vps : List Vec3) : triadProj oCok vps = 1 := by
  unfold triadProj
  show svdOne.U * svdOne.Vt = (1 : Mat3)
  show (1 : Mat3) * 1 = 1
  rw [Matrix.one_mul]

lemma hact_full {st : SearchState 3} (hpool : st.line_id_pool = fun _ => true) :
    ¬ activeSize st < 3 := by
  rw [activeSize_of_full st hpool]
  decide

lemma hnf_p3_full {st : SearchState 3}
    (hpool : st.line_id_pool = fun _ => true) :
    ¬ stepFaults p3 (none : Option (List (Fin 3))) st := by
  rintro ⟨-, -, hlt⟩
  rw [activeSize_of_full st hpool] at hlt
  exact absurd hlt (by decide)

lemma cexOk_step1 : step cex2Para p3 none oA (resetState 3) = .next st1c := by
  unfold step
  rw [if_neg (hact_full rfl), if_neg (hnf_p3_full rfl)]
  simp only [show oA.solved = some so1 from rfl]
  have heig : check_eig so1 p3 := ⟨check_eig_001 _, check_eig_001 _⟩
  rw [if_pos heig]
  rw [if_neg (by decide : ¬ (resetState 3).est_vps.length = 1)]
  rw [if_neg (by decide : ¬ (resetState 3).est_vps.length = 2)]
  rw [show recover_vp so1.svd1 = ![1, 0, 0] from rec_e0]
  unfold acceptStep
  have hl1 : ¬ ((resetState 3).est_vps ++ [![1, 0, 0]]).length = 3 := by decide
  rw [if_neg hl1]
  rw [acceptState_slow_czero cex2Para rfl rfl oA (resetState 3) ![1, 0, 0] rfl]
  rfl

lemma cexOk_step2 : step cex2Para p3 none oB st1c = .next st2c := by
  have horth : ¬ orthoFail p3 (st1c.est_vps.getD 0 vzero)
      (recover_vp so2.svd1) := by
    rw [show st1c.est_vps.getD 0 vzero = ![1, 0, 0] from rfl,
      show recover_vp so2.svd1 = ![0, 1, 0] from rec_e1]
    exact orthoFail_c0_dot0 dot3_e0_e1
  unfold step
  rw [if_neg (hact_full rfl), if_neg (hnf_p3_full rfl)]
  simp only [show oB.solved = some so2 from rfl]
  have heig : check_eig so2 p3 := ⟨check_eig_001 _, check_eig_001 _⟩
  rw [if_pos heig]
  rw [if_pos (by decide : st1c.est_vps.length = 1)]
  rw [if_neg horth]
  rw [show recover_vp so2.svd1 = ![0, 1, 0] from rec_e1]
  unfold acceptStep
  have hl2 : ¬ (st1c.est_vps ++ [![0, 1, 0]]).length = 3 := by decide
  rw [if_neg hl2]
  rw [acceptState_slow_czero cex2Para rfl rfl oB st1c ![0, 1, 0] rfl]
  rfl

lemma runAux_succ_eq {n : ℕ} (para : Fin n → Vec3) (p : Param)
    (seed : Option (List (Fin n))) (o : ℕ → IterOracle n) (fuel : ℕ)
    (st : SearchState n) :
    runAux para p seed o (fuel + 1) st =
      match step para p seed (o 0) st with
      | .done r => r
      | .next st' => runAux para p seed (fun k => o (k + 1)) fuel st' := rfl

lemma cexOk_step3 :
    step cex2Para p3 none oCok st2c =
      .done (.ok [(1 : Mat3) 0, (1 : Mat3) 1, (1 : Mat3) 2]
        [corrVec [], corrVec [], corrVec []]) := by
  unfold step
  rw [if_neg (hact_full rfl), if_neg (hnf_p3_full rfl)]
  simp only [show oCok.solved = some so3ok from rfl]
  have heig : check_eig so3ok p3 := ⟨check_eig_001 _, check_eig_001 _⟩
  rw [if_pos heig]
  rw [if_neg (by decide : ¬ st2c.est_vps.length = 1)]
  rw [if_pos (by decide : st2c.est_vps.length = 2)]
  rw [thirdVp_st2c_e2]
  unfold acceptStep
  have hl4 : (st2c.est_vps ++ [![0, 0, 1]]).length = 3 := by decide
  rw [if_pos hl4]
  rw [inlierIds_c_zero cex2Para p3 rfl]
  unfold finalizeTriad
  rw [triadProj_oCok,
    show (1 : Mat3) * (1 : Mat3).transpose = 1 from by simp,
    if_pos allcloseId_one]
  rfl

lemma cexOk_run :
    runAux cex2Para p3 none cexOkO 3 (resetState 3) =
      .ok [(1 : Mat3) 0, (1 : Mat3) 1, (1 : Mat3) 2]
        [corrVec [], corrVec [], corrVec []] := by
  show runAux cex2Para p3 none cexOkO (2 + 1) (resetState 3) =
    .ok [(1 : Mat3) 0, (1 : Mat3) 1, (1 : Mat3) 2]
      [corrVec [], corrVec [], corrVec []]
  rw [runAux_succ_eq, show cexOkO 0 = oA from rfl, cexOk_step1]
  show runAux cex2Para p3 none (fun k => cexOkO (k + 1)) (1 + 1) st1c =
    .ok [(1 : Mat3) 0, (1 : Mat3) 1, (1 : Mat3) 2]
      [corrVec [], corrVec [], corrVec []]
  rw [runAux_succ_eq, show cexOkO (0 + 1) = oB from rfl, cexOk_step2]
  show runAux cex2Para p3 none (fun k => cexOkO (k + 1 + 1)) (0 + 1) st2c =
    .ok [(1 : Mat3) 0, (1 : Mat3) 1, (1 : Mat3) 2]
      [corrVec [], corrVec [], corrVec []]
  rw [runAux_succ_eq, show cexOkO (0 + 1 + 1) = oCok from rfl, cexOk_step3]

lemma histlen_p3_real : ((p3.histogram_len : ℕ) : ℝ) = 100 := by
  norm_num [p3]

lemma histlen_p3_int : ((p3.histogram_len : ℕ) : ℤ) = 100 := by
  norm_num [p3]

lemma shift_up_div : (Real.pi / 2 + Real.pi / 2) / (Real.pi / (100 : ℝ)) = 100 := by
  have hpi := Real.pi_ne_zero
  field_simp

lemma shift_down_div :
    (-(Real.pi / 2) + Real.pi / 2) / (Real.pi / (100 : ℝ)) = 0 := by
  rw [show -(Real.pi / 2) + Real.pi / 2 = 0 by ring, zero_div]

lemma binId_cex4_up (i : Fin 3) (h2 : cex4Lines i 2 - cex4Lines i 0 = 0)
    (h3 : cex4Lines i 3 - cex4Lines i 1 = 1) :
    binId cex4Lines p3 i = 99 := by
  simp only [binId]
  rw [h2, h3, lineDirection_vertical_up one_pos, histlen_p3_real,
    histlen_p3_int, shift_up_div]
  rw [show ⌈(100 : ℝ)⌉ = 100 from by norm_num]
  decide

lemma binId_cex4_down (i : Fin 3) (h2 : cex4Lines i 2 - cex4Lines i 0 = 0)
    (h3 : cex4Lines i 3 - cex4Lines i 1 = -1) :
    binId cex4Lines p3 i = 0 := by
  simp only [binId]
  rw [h2, h3, lineDirection_vertical_down (by norm_num : (-1 : ℝ) < 0),
    histlen_p3_real, histlen_p3_int, shift_down_div]
  rw [Int.ceil_zero]
  decide

lemma binId_cex4_fun : binId cex4Lines p3 = ![99, 99, 0] := by
  have h0 : binId cex4Lines p3 0 = 99 :=
    binId_cex4_up 0 (by norm_num [cex4Lines]) (by norm_num [cex4Lines])
  have h1 : binId cex4Lines p3 1 = 99 :=
    binId_cex4_up 1 (by norm_num [cex4Lines]) (by norm_num [cex4Lines])
  have h2 : binId cex4Lines p3 2 = 0 :=
    binId_cex4_down 2 (by norm_num [cex4Lines]) (by norm_num [cex4Lines])
  funext i
  fin_cases i
  · simpa using h0
  · simpa using h1
  · simpa using h2

lemma corrInv_reset (n : ℕ) : CorrInv (resetState n) := by
  refine ⟨?_, rfl, ?_, ?_⟩
  · simp [resetState]
  · intro c hc; simp [resetState] at hc
  · simp [resetState]

lemma corrs_append_pairwise {n : ℕ} {para : Fin n → Vec3} {p : Param}
    (st : SearchState n) (vp : Vec3) (hinv : CorrInv st) :
    List.Pairwise CorrDisj
      (st.est_corrs ++ [corrVec (inlierIds para p vp st)]) := by
  obtain ⟨hrev, -, hzero, hpw⟩ := hinv
  rw [List.pairwise_append]
  refine ⟨hpw, by simp, ?_⟩
  intro c1 hc1 c2 hc2
  have hc2' : c2 = corrVec (inlierIds para p vp st) := by simpa using hc2
  subst hc2'
  intro g
  by_cases hmem : g ∈ inlierIds para p vp st
  · left
    have hg1 : g ∈ st.reverse_pool := List.mem_of_mem_filter hmem
    have hpool : st.line_id_pool g = true := by
      rw [hrev] at hg1
      exact (List.mem_filter.mp hg1).2
    exact hzero c1 hc1 g hpool
  · right
    simp [corrVec, hmem]

lemma corrInv_step {n : ℕ} {para : Fin n → Vec3} {p : Param}
    {seed : Option (List (Fin n))} {o : IterOracle n} {st st' : SearchState n}
    (h : step para p seed o st = .next st') (hinv : CorrInv st) :
    CorrInv st' := by
  rcases step_next_inv para p seed o st st' h with h1 | h1 | ⟨vp, h1⟩
  · subst h1; exact corrInv_reset n
  · subst h1; exact hinv
  · subst h1
    obtain ⟨hrev, hlen, hzero, hpw⟩ := hinv
    refine ⟨rfl, by simp [acceptState, hlen], ?_, ?_⟩
    · intro c hc g hg
      have hg2 : acceptPool1 para p o st vp g = true ∧
          g ∉ inlierIds para p vp st := by
        have := hg
        simp only [acceptState, acceptPool2, Bool.and_eq_true, Bool.not_eq_true',
          decide_eq_false_iff_not] at this
        exact this
      rcases (by simpa [acceptState] using hc :
          c ∈ st.est_corrs ∨ c = corrVec (inlierIds para p vp st)) with hcold | hcnew
      · rcases acceptPool1_cases para p o st vp with hcase | hcase
        · have hpool : st.line_id_pool g = true := by
            rw [hcase] at hg2
            exact hg2.1
          exact hzero c hcold g hpool
        · have hnil : st.est_corrs = [] :=
            List.length_eq_zero.mp (by rw [hlen, hcase]; rfl)
          rw [hnil] at hcold
          simp at hcold
      · subst hcnew
        simp [corrVec, hg2.2]
    · show List.Pairwise CorrDisj
        (st.est_corrs ++ [corrVec (inlierIds para p vp st)])
      exact corrs_append_pairwise st vp ⟨hrev, hlen, hzero, hpw⟩

lemma reaches_corrInv {n : ℕ} {para : Fin n → Vec3} {p : Param}
    {seed : Option (List (Fin n))} {o : ℕ → IterOracle n}
    {st1 st2 : SearchState n} (hr : Reaches para p seed o st1 st2) :
    CorrInv st1 → CorrInv st2 := by
  induction hr with
  | refl o st => exact id
  | tail o st st' st'' hstep _ ih => exact fun h1 => ih (corrInv_step hstep h1)

lemma seedOf_p3 : seedOf cex2Lines p3 = none := by simp [seedOf, p3]

lemma noneStep_eval :
    step cex2Para p3 (none : Option (List (Fin 3))) noneOracle (resetState 3) =
      .next (resetState 3) := by
  have hnf : ¬ stepFaults p3 (none : Option (List (Fin 3))) (resetState 3) := by
    rintro ⟨-, -, hlt⟩
    exact absurd hlt (by decide)
  unfold step
  rw [if_neg (by decide : ¬ activeSize (resetState 3) < 3), if_neg hnf]
  rfl

lemma runNone_eval :
    runAux cex2Para p3 (none : Option (List (Fin 3))) cex2O 3 (resetState 3) =
      .failed [] [] := by
  suffices hgen : ∀ (fuel : ℕ) (o2 : ℕ → IterOracle 3),
      (∀ k, o2 k = noneOracle) →
      runAux cex2Para p3 none o2 fuel (resetState 3) = .failed [] [] from
    hgen 3 cex2O fun _ => rfl
  intro fuel
  induction fuel with
  | zero => intro o2 _; rfl
  | succ k ih =>
    intro o2 ho2
    unfold runAux
    rw [ho2 0, noneStep_eval]
    exact ih _ fun k2 => ho2 (k2 + 1)

lemma globustvp_noneRun :
    globustvp cex2Lines cex2Para cex2Unc p3 cex2O = .failed [] [] := by
  show runAux cex2Para p3 (seedOf cex2Lines p3) cex2O p3.iteration
    (resetState 3) = .failed [] []
  rw [seedOf_p3]
  exact runNone_eval

lemma step_ok_pairwise {n : ℕ} {para : Fin n → Vec3} {p : Param}
    {seed : Option (List (Fin n))} {o : IterOracle n} {st : SearchState n}
    {v : List Vec3} {c : List (Fin n → ℝ)}
    (h : step para p seed o st = .done (.ok v c)) (hinv : CorrInv st) :
    List.Pairwise CorrDisj c := by
  simp only [step, acceptStep, finalizeTriad] at h
  repeat' split at h
  all_goals try exact StepRes.noConfusion h
  all_goals injection h with h
  all_goals try exact Result.noConfusion h
  all_goals injection h with hv hc
  all_goals subst hc
  all_goals first
    | exact hinv.2.2.2
    | exact corrs_append_pairwise st _ hinv

lemma runAux_ok_pairwise {n : ℕ} {para : Fin n → Vec3} {p : Param}
    {seed : Option (List (Fin n))} :
    ∀ (fuel : ℕ) (o : ℕ → IterOracle n) (st : SearchState n)
      (v : List Vec3) (c : List (Fin n → ℝ)),
      CorrInv st → runAux para p seed o fuel st = .ok v c →
      List.Pairwise CorrDisj c := by
  intro fuel
  induction fuel with
  | zero =>
    intro o st v c hinv h
    exact Result.noConfusion h
  | succ k ih =>
    intro o st v c hinv h
    rw [runAux_succ_eq] at h
    split at h
    · next r hstep =>
      subst h
      exact step_ok_pairwise hstep hinv
    · next st' hstep =>
      exact ih _ _ _ _ (corrInv_step hstep hinv) h

lemma globustvp_okRun :
    globustvp cex2Lines cex2Para cex2Unc p3 cexOkO =
      .ok [(1 : Mat3) 0, (1 : Mat3) 1, (1 : Mat3) 2]
        [corrVec [], corrVec [], corrVec []] := by
  show runAux cex2Para p3 (seedOf cex2Lines p3) cexOkO p3.iteration
    (resetState 3) =
      .ok [(1 : Mat3) 0, (1 : Mat3) 1, (1 : Mat3) 2]
        [corrVec [], corrVec [], corrVec []]
  rw [seedOf_p3]
  exact cexOk_run

lemma vt_row_sq (M : Mat3) (h : M * M.transpose = 1) :
    M 0 0 * M 0 0 + M 0 1 * M 0 1 + M 0 2 * M 0 2 = 1 := by
  have h00 : (M * M.transpose) 0 0 = (1 : Mat3) 0 0 := by rw [h]
  simpa [Matrix.mul_apply, Fin.sum_univ_three, Matrix.transpose_apply,
    Matrix.one_apply] using h00

/-! ## Claims -/

/-- C3: for every solved SDP pair, `recover_vp` returns the top
right-singular row of the leading 3×3 VP block of the first variable
scaled by its leading singular value; consequently its Euclidean norm
equals the leading singular value (not necessarily 1). -/
theorem c3_recover_vp_scaled (B : Mat3) (f : SVD3) (h : SVD3.valid B f) :
    recover_vp f = (fun j => f.S 0 * f.Vt 0 j) ∧
      norm3 (recover_vp f) = f.S 0 := by
  obtain ⟨-, hVt, hS, -, -⟩ := h
  refine ⟨rfl, ?_⟩
  have hrow := vt_row_sq f.Vt hVt
  have hrw : norm3 (recover_vp f) =
      Real.sqrt ((f.S 0) ^ 2 *
        (f.Vt 0 0 * f.Vt 0 0 + f.Vt 0 1 * f.Vt 0 1 + f.Vt 0 2 * f.Vt 0 2)) := by
    unfold norm3 recover_vp
    congr 1
    ring
  rw [hrw, hrow, mul_one, Real.sqrt_sq (hS 0)]

/-- C3 witness: the identity SVD of the identity VP block. -/
theorem c3_recover_vp_scaled_witness :
    SVD3.valid 1 svdOne ∧ norm3 (recover_vp svdOne) = svdOne.S 0 := by
  have hones : (![1, 1, 1] : Fin 3 → ℝ) = fun _ => 1 := by
    funext i; fin_cases i <;> rfl
  have hv : SVD3.valid 1 svdOne := by
    refine ⟨?_, ?_, ?_, ?_, ?_⟩
    · simp [svdOne]
    · simp [svdOne]
    · intro i; fin_cases i <;> norm_num [svdOne]
    · constructor <;> norm_num [svdOne]
    · simp [svdOne, hones]
  exact ⟨hv, (c3_recover_vp_scaled 1 svdOne hv).2⟩

/-- C5: with uncertainty weighting enabled, every weight returned by
`compute_line_uncertainties` lies in `[0.1, 0.3]`: the affine rescaling
maps raw weights into the interval, the floored denominator covering the
all-equal case. -/
theorem c5_uncertainty_bounds {N : ℕ} [NeZero N]
    (lines : Fin N → Fin 4 → ℝ) (K : Mat3) (i : Fin N) :
    0.1 ≤ compute_line_uncertainties lines K true i ∧
      compute_line_uncertainties lines K true i ≤ 0.3 := by
  unfold compute_line_uncertainties
  simp only [if_true]
  set raw : Fin N → ℝ := fun j => rawWeight K (lines j) with hraw
  set m := Finset.univ.inf' Finset.univ_nonempty raw with hm
  set M := Finset.univ.sup' Finset.univ_nonempty raw with hM
  set d : ℝ := if M - m < 1e-8 then 1e-8 else M - m with hd
  have hmin : m ≤ raw i := Finset.inf'_le _ (Finset.mem_univ i)
  have hmax : raw i ≤ M := Finset.le_sup' _ (Finset.mem_univ i)
  have hd0 : (0 : ℝ) < d := by
    rw [hd]; split
    · norm_num
    · next hc => have := not_lt.mp hc; linarith
  have hle : raw i - m ≤ d := by
    rw [hd]; split
    · next hc => linarith
    · linarith
  have hnn : 0 ≤ raw i - m := by linarith
  have hfrac0 : 0 ≤ (raw i - m) * 0.2 / d :=
    div_nonneg (mul_nonneg hnn (by norm_num)) hd0.le
  have hfrac1 : (raw i - m) * 0.2 / d ≤ 0.2 := by
    rw [div_le_iff₀ hd0]
    nlinarith
  constructor <;> [linarith; linarith]

/-- C5 witness: a one-line input. -/
theorem c5_uncertainty_bounds_witness :
    0.1 ≤ compute_line_uncertainties linesW5 1 true 0 ∧
      compute_line_uncertainties linesW5 1 true 0 ≤ 0.3 :=
  c5_uncertainty_bounds linesW5 1 0

/-- C2 (amended): provided the per-iteration sample size does not exceed
the line count, the outer loop of `globustvp` executes at most
`param["iteration"]` outer iterations; a `False`-flag result is produced
exactly by consuming the whole budget without a success return; and the
run never escapes with the sampling `ValueError`.  (Without the
sample-size proviso the claim fails: see the counterexample.) -/
theorem c2_budget_and_failure {n : ℕ} (all2D : Fin n → Fin 4 → ℝ)
    (para : Fin n → Vec3) (unc : Fin n → ℝ) (p : Param)
    (o : ℕ → IterOracle n) (hs : p.sample_line_num ≤ n) :
    runSteps para p (seedOf all2D p) o p.iteration (resetState n) ≤
      p.iteration ∧
    (∀ (v : List Vec3) (c' : List (Fin n → ℝ)),
      globustvp all2D para unc p o = .failed v c' →
      runSteps para p (seedOf all2D p) o p.iteration (resetState n) =
        p.iteration) ∧
    globustvp all2D para unc p o ≠ .fault := by
  refine ⟨runSteps_le para p _ _ _ _, ?_, ?_⟩
  · intro v c' h
    exact runAux_failed_steps para p _ _ _ _ v c' h
  · exact runAux_no_fault para p _ hs _ _ _ (poolFull_reset n)

/-- C2 witness: 3 lines, sample size 3, a solver that always raises:
the loop executes exactly its full 3-iteration budget and stops. -/
theorem c2_budget_and_failure_witness :
    p3.sample_line_num ≤ 3 ∧
      runSteps cex2Para p3 (seedOf cex2Lines p3) cex2O p3.iteration
        (resetState 3) = p3.iteration :=
  ⟨by decide,
    (c2_budget_and_failure cex2Lines cex2Para cex2Unc p3 cex2O
      (by decide)).2.1 [] [] globustvp_noneRun⟩

/-- C2 counterexample: with `sample_line_num = 4` over `line_num = 3`
lines, the first iteration reaches
`np.random.choice(3, 4, replace=False)` (core.py:99), which raises, so
`globustvp` escapes with an error instead of terminating with a
`False`-flag result — refuting the claim's "for every input and
parameter set ... rather than hanging or raising". -/
theorem c2_claim_counterexample :
    globustvp cex2Lines cex2Para cex2Unc p4 cex2O = .fault := by
  have hseed : seedOf cex2Lines p4 = none := by simp [seedOf, p4]
  have hf : stepFaults p4 (none : Option (List (Fin 3))) (resetState 3) := by
    refine ⟨rfl, ?_, by decide⟩
    rintro ⟨hfast, -⟩
    simp [p4] at hfast
  have hstep : step cex2Para p4 (none : Option (List (Fin 3))) (cex2O 0)
      (resetState 3) = .done .fault := by
    unfold step
    rw [if_neg (by decide : ¬ activeSize (resetState 3) < 3), if_pos hf]
  show runAux cex2Para p4 (seedOf cex2Lines p4) cex2O p4.iteration
    (resetState 3) = .fault
  rw [hseed]
  show runAux cex2Para p4 none cex2O 3 (resetState 3) = .fault
  unfold runAux
  rw [hstep]

/-- C9: when the search fails (budget exhausted), the payload handed to
the host is the explicit failure record, which by construction carries
no vanishing-point data. -/
theorem c9_failure_payload {n : ℕ} (all2D : Fin n → Fin 4 → ℝ)
    (para : Fin n → Vec3) (unc : Fin n → ℝ) (p : Param)
    (o : ℕ → IterOracle n) (K : Mat3) (lines2D : List (Fin 4 → ℝ))
    (v : List Vec3) (c' : List (Fin n → ℝ))
    (h : globustvp all2D para unc p o = .failed v c') :
    processResult K lines2D (globustvp all2D para unc p o) =
      .failedP "Solver did not converge." ∧
    ∀ (l : List (Fin 4 → ℝ)) (v3 : List Vec3)
      (v2 : List (Option (Fin 2 → ℝ))) (a : Fin n → ℤ),
      processResult K lines2D (globustvp all2D para unc p o) ≠
        .success l v3 v2 a := by
  rw [h]
  exact ⟨rfl, fun l v3 v2 a hcontra => by simp [processResult] at hcontra⟩

/-- C9 witness: the exhausted none-solver run yields the failure
payload. -/
theorem c9_failure_payload_witness :
    globustvp cex2Lines cex2Para cex2Unc p3 cex2O = .failed [] [] ∧
      processResult 1 [] (globustvp cex2Lines cex2Para cex2Unc p3 cex2O) =
        .failedP "Solver did not converge." :=
  ⟨globustvp_noneRun,
    (c9_failure_payload cex2Lines cex2Para cex2Unc p3 cex2O 1 [] [] []
      globustvp_noneRun).1⟩

/-- C6: when the eigenvalue rank-dominance check fails for either VP
block of the solved pair, the iteration resamples with no state
mutation: the step hands back the incoming state — mask, reverse map,
accepted VPs and correspondences all unchanged. -/
theorem c6_eig_fail_no_mutation {n : ℕ} (para : Fin n → Vec3) (p : Param)
    (seed : Option (List (Fin n))) (o : IterOracle n) (st : SearchState n)
    (s : SolveOut) (hsol : o.solved = some s) (heig : ¬ check_eig s p)
    (hact : ¬ activeSize st < 3) (hnf : ¬ stepFaults p seed st) :
    step para p seed o st = .next st := by
  unfold step
  rw [if_neg hact, if_neg hnf]
  simp only [hsol]
  rw [if_neg heig]

/-- C6 witness: a concrete solved pair whose eigenvalue ratio `5/5 = 1`
fails the threshold 9 leaves the reset state untouched. -/
theorem c6_eig_fail_no_mutation_witness :
    eigFailOracle.solved = some soEigFail ∧ ¬ check_eig soEigFail p3 ∧
      step cex2Para p3 none eigFailOracle (resetState 3) =
        .next (resetState 3) := by
  have h5 : soEigFail.eig1 1 = 5 := rfl
  have h52 : soEigFail.eig1 2 = 5 := rfl
  have heig : ¬ check_eig soEigFail p3 := by
    rintro ⟨h1, -⟩
    unfold check_eig_one at h1
    rw [if_pos (by rw [h5]; norm_num)] at h1
    rw [h5, h52] at h1
    norm_num [p3] at h1
  refine ⟨rfl, heig, ?_⟩
  exact c6_eig_fail_no_mutation cex2Para p3 none eigFailOracle (resetState 3)
    soEigFail rfl heig (by decide)
    (by rintro ⟨-, -, hlt⟩; exact absurd hlt (by decide))

/-- C10: at every reachable state in which no VP has yet been accepted,
the active-pool mask is all-True and the reverse map is the identity
enumeration `0..line_num-1`; consequently indexing the active line array
with a global index yields exactly that global line. -/
theorem c10_initial_pool_identity {n : ℕ} (para : Fin n → Vec3) (p : Param)
    (seed : Option (List (Fin n))) (o : ℕ → IterOracle n)
    (st : SearchState n) (hr : Reaches para p seed o (resetState n) st)
    (hemp : st.est_vps = []) :
    st.line_id_pool = (fun _ => true) ∧
      st.reverse_pool = List.finRange n ∧
      ∀ (g : Fin n) (hg : g.val < (activeLines para st).length),
        (activeLines para st).get ⟨g.val, hg⟩ = para g := by
  obtain ⟨hmask, hrev⟩ := reaches_poolFull hr (poolFull_reset n) hemp
  refine ⟨hmask, hrev, ?_⟩
  intro g hg
  simp [activeLines, hrev, List.getElem_map, List.get_finRange]

/-- C10 witness: the initial state itself. -/
theorem c10_initial_pool_identity_witness :
    (resetState 3).line_id_pool = (fun _ => true) ∧
      (resetState 3).reverse_pool = List.finRange 3 ∧
      ∀ (g : Fin 3) (hg : g.val < (activeLines cex2Para (resetState 3)).length),
        (activeLines cex2Para (resetState 3)).get ⟨g.val, hg⟩ = cex2Para g :=
  c10_initial_pool_identity cex2Para p3 none cex2O (resetState 3)
    (Reaches.refl cex2O (resetState 3)) rfl

/-- C8: within one accept cycle (no intervening full reset), the
correspondence vectors accumulated for the accepted VPs mark pairwise
disjoint index sets: a line classified as inlier is removed from the
active pool before the next VP is searched, so it cannot be claimed
again.  Formally: at every state reachable from the reset state the
recorded correspondences are pairwise disjoint, and the full
correspondence list delivered with a success result — including the
third vector appended during triad validation (core.py:206) — is
pairwise disjoint. -/
theorem c8_corr_disjoint {n : ℕ} (all2D : Fin n → Fin 4 → ℝ)
    (para : Fin n → Vec3) (unc : Fin n → ℝ) (p : Param)
    (o : ℕ → IterOracle n) :
    (∀ (seed : Option (List (Fin n))) (st : SearchState n),
      Reaches para p seed o (resetState n) st →
      List.Pairwise CorrDisj st.est_corrs) ∧
    ∀ (v : List Vec3) (c : List (Fin n → ℝ)),
      globustvp all2D para unc p o = .ok v c →
      List.Pairwise CorrDisj c := by
  constructor
  · intro seed st hr
    exact (reaches_corrInv hr (corrInv_reset n)).2.2.2
  · intro v c h
    have h' : runAux para p (seedOf all2D p) o p.iteration (resetState n) =
        .ok v c := h
    exact runAux_ok_pairwise p.iteration o (resetState n) v c
      (corrInv_reset n) h'

/-- C8 witness: a concrete three-acceptance run returns success, and the
three correspondence vectors it delivers are pairwise disjoint. -/
theorem c8_corr_disjoint_witness :
    globustvp cex2Lines cex2Para cex2Unc p3 cexOkO =
      .ok [(1 : Mat3) 0, (1 : Mat3) 1, (1 : Mat3) 2]
        [corrVec [], corrVec [], corrVec []] ∧
    List.Pairwise CorrDisj
      [corrVec ([] : List (Fin 3)), corrVec [], corrVec []] :=
  ⟨globustvp_okRun,
    (c8_corr_disjoint cex2Lines cex2Para cex2Unc p3 cexOkO).2 _ _
      globustvp_okRun⟩

/-- C7: when the fast path is enabled and the first VP is accepted, the
active pool is first replaced (not intersected) by the peak-interval
output — the supporting line indices of the maximal-count rotation about
the accepted VP — and only then are the first VP's own inliers removed
from that restricted pool: the new mask is exactly
"member of `find_peak_intervals` and not an inlier", independent of the
previous mask. -/
theorem c7_fast_path_pool_replacement {n : ℕ} (para : Fin n → Vec3)
    (p : Param) (seed : Option (List (Fin n))) (o : IterOracle n)
    (st : SearchState n) (s : SolveOut) (hfast : p.is_fast_solver = true)
    (hemp : st.est_vps = []) (hsol : o.solved = some s)
    (heig : check_eig s p) (hact : ¬ activeSize st < 3)
    (hnf : ¬ stepFaults p seed st) :
    step para p seed o st =
      .next (acceptState para p o st (recover_vp s.svd1)) ∧
    ∀ g, (acceptState para p o st (recover_vp s.svd1)).line_id_pool g =
      (decide (g ∈ find_peak_intervals (recover_vp s.svd1) para o.n1base) &&
       !(decide (g ∈ inlierIds para p (recover_vp s.svd1) st))) := by
  constructor
  · unfold step
    rw [if_neg hact, if_neg hnf]
    simp only [hsol]
    rw [if_pos heig]
    rw [if_neg (by rw [hemp]; simp : ¬ st.est_vps.length = 1)]
    rw [if_neg (by rw [hemp]; simp : ¬ st.est_vps.length = 2)]
    unfold acceptStep
    rw [if_neg (by rw [hemp]; simp :
      ¬ (st.est_vps ++ [recover_vp s.svd1]).length = 3)]
  · intro g
    show acceptPool2 para p o st (recover_vp s.svd1) g = _
    unfold acceptPool2 acceptPool1
    rw [if_pos ⟨hfast, by rw [hemp]; rfl⟩]

/-- C7 witness: the first acceptance from the reset state under the fast
path, with a zero VP block (rank check passes through the `np.inf`
branch). -/
theorem c7_fast_path_pool_replacement_witness :
    pFast.is_fast_solver = true ∧ check_eig soZero pFast ∧
      step cex2Para pFast none zeroOracle (resetState 3) =
        .next (acceptState cex2Para pFast zeroOracle (resetState 3)
          (recover_vp soZero.svd1)) := by
  have heig : check_eig soZero pFast := by
    constructor
    · unfold check_eig_one
      rw [if_neg (by norm_num [soZero] : ¬ (1e-12 : ℝ) < soZero.eig1 1)]
      trivial
    · unfold check_eig_one
      rw [if_neg (by norm_num [soZero] : ¬ (1e-12 : ℝ) < soZero.eig2 1)]
      trivial
  refine ⟨rfl, heig, ?_⟩
  exact (c7_fast_path_pool_replacement cex2Para pFast none zeroOracle
    (resetState 3) soZero rfl rfl rfl heig (by decide)
    (by rintro ⟨-, -, hlt⟩; exact absurd hlt (by decide))).1

/-- C4 (amended): for every nonempty set of segments whose directions
are all equal *under the code's direction computation* — equal
`arctan(dy/dx)` slope, or all vertical with `dy` of the same sign (a
vertical segment with `dy < 0` is mapped to `-π/2`, not `π/2`) —
`generate_bin` places all segments into one bin and returns exactly the
full index list as the dominant cluster. -/
theorem c4_single_bin_dominant {N : ℕ} (lines : Fin N → Fin 4 → ℝ)
    (p : Param) (hN : 0 < N) (hH : 0 < p.histogram_len)
    (hdir : ∀ i j,
      lineDirection (lines i 2 - lines i 0) (lines i 3 - lines i 1) =
        lineDirection (lines j 2 - lines j 0) (lines j 3 - lines j 1)) :
    (∀ i j, binId lines p i = binId lines p j) ∧
      generate_bin lines p = List.finRange N := by
  obtain ⟨i0⟩ : Nonempty (Fin N) := ⟨⟨0, hN⟩⟩
  have hbin : ∀ i, binId lines p i = binId lines p i0 := by
    intro i
    simp only [binId]
    rw [hdir i i0]
  refine ⟨fun i j => (hbin i).trans (hbin j).symm, ?_⟩
  unfold generate_bin
  exact genBinCore_const _ _ _ hbin (binId_lt lines p i0 hH) hN

/-- C4 witness: two identical upward vertical segments land in one bin
and both indices are returned. -/
theorem c4_single_bin_dominant_witness :
    generate_bin linesW4 p3 = List.finRange 2 :=
  (c4_single_bin_dominant linesW4 p3 (by norm_num) (by norm_num [p3])
    fun i j => rfl).2

/-- C4 counterexample: three vertical segments of identical orientation,
two drawn upward and one downward.  The downward one gets direction
`arctan(-inf) = -π/2` (not `π/2`), lands in bin 0 while the upward ones
land in bin 99, and `generate_bin` returns only `[0, 1]` — not all three
indices — refuting the claim as stated. -/
theorem c4_claim_counterexample :
    binId cex4Lines p3 0 = 99 ∧ binId cex4Lines p3 2 = 0 ∧
      generate_bin cex4Lines p3 = [0, 1] ∧
      generate_bin cex4Lines p3 ≠ List.finRange 3 := by
  have hfun := binId_cex4_fun
  have hgen : generate_bin cex4Lines p3 = [0, 1] := by
    unfold generate_bin
    rw [hfun]
    show genBinCore ![99, 99, 0] 100 = [0, 1]
    decide
  refine ⟨?_, ?_, hgen, ?_⟩
  · rw [show binId cex4Lines p3 0 = ![99, 99, 0] 0 from congrFun hfun 0]; rfl
  · rw [show binId cex4Lines p3 2 = ![99, 99, 0] 2 from congrFun hfun 2]; rfl
  · rw [hgen]; decide

end

end GlobustVP
